import Mathlib

/-!
# Verification of the 2x2 Rubik's cube solver

A shallow embedding of the C sources (`cube.c`, `state_table.c`, `queue.c`)
of the 2x2 Rubik's cube solver, together with proofs and refutations of the
specification's claims about them.

Conventions used throughout:
* C `int` cube values are nonnegative in every reachable run, so cube values
  are modelled as `Nat`; the places where a negative `int` can appear (the
  `-1` empty indicators of the queue and of `get_turn`) use `Int`.
* The 5-byte table records (4 value bytes + 1 turn byte) are modelled as a
  pair `(value, turn)`; reads and comparisons that the C code performs on
  the individual bytes are modelled through `byteOf`, which extracts the
  big-endian bytes of the stored value, so the byte-level behaviour
  (including the "four zero bytes = empty slot" convention) is preserved.
* Loops are modelled by structural recursion on an explicit iteration bound
  matching the loop's own bound (`find_index`'s `i < NUMBER_OF_CUBES`), or
  by a fuel argument large enough that exhaustion is unreachable
  (`get_turn`'s do/while, whose window shrinks at every step).
* Undefined behaviour (out-of-bounds reads caused by feeding the queue's
  `-1` empty indicator to `rotate`, or `find_index` falling off the end of
  a non-void function) is modelled by `Option`: `none` means the C program
  has no defined result.
-/

/-! ## The configuration engine (`cube.c`) -/

/-- Powers of 21 (`c21_0` .. `c21_6` in `cube.c`). -/
def c21 (i : Nat) : Nat := 21 ^ i

/-- `turn_table` from `cube.c`: rows are the six turns
(0: front CC, 1: front C, 2: left CC, 3: left C, 4: top CC, 5: top C),
columns are indexed by the 21 piece states. -/
def turn_table : List (List Nat) :=
  [[4,5,3,11,9,10,1,2,0,8,6,7,12,13,14,15,16,17,18,19,20],
   [8,6,7,2,0,1,10,11,9,4,5,3,12,13,14,15,16,17,18,19,20],
   [13,14,12,1,2,0,6,7,8,9,10,11,17,15,16,5,3,4,18,19,20],
   [5,3,4,16,17,15,6,7,8,9,10,11,2,0,1,13,14,12,18,19,20],
   [7,8,6,3,4,5,20,18,19,9,10,11,1,2,0,15,16,17,14,12,13],
   [14,12,13,3,4,5,2,0,1,9,10,11,19,20,18,15,16,17,7,8,6]]

/-- `turn_table[turn][s]`.  Out-of-range accesses are undefined behaviour in
the C program; the `getD` defaults are never relied upon by any theorem
(every use is guarded by `turn < 6` and `s < 21`). -/
def tt (turn s : Nat) : Nat := (turn_table.getD turn []).getD s 0

/-- `rotate` from `cube.c`: decompose the cube into the 7 piece states,
map each through the turn's permutation row, and recombine. -/
def rotate (cube : Nat) (turn : Nat) : Nat :=
  let state6 := cube / c21 6
  let state5 := cube % c21 6 / c21 5
  let state4 := cube % c21 5 / c21 4
  let state3 := cube % c21 4 / c21 3
  let state2 := cube % c21 3 / c21 2
  let state1 := cube % c21 2 / c21 1
  let state0 := cube % c21 1
  tt turn state0 + tt turn state1 * c21 1 + tt turn state2 * c21 2 +
    tt turn state3 * c21 3 + tt turn state4 * c21 4 + tt turn state5 * c21 5 +
    tt turn state6 * c21 6

/-- `frontCC` from `cube.c`. -/
def frontCC (cube : Nat) : Nat := rotate cube 0

/-- `frontC` from `cube.c`. -/
def frontC (cube : Nat) : Nat := rotate cube 1

/-- `leftCC` from `cube.c`. -/
def leftCC (cube : Nat) : Nat := rotate cube 2

/-- `leftC` from `cube.c`. -/
def leftC (cube : Nat) : Nat := rotate cube 3

/-- `topCC` from `cube.c`. -/
def topCC (cube : Nat) : Nat := rotate cube 4

/-- `topC` from `cube.c`. -/
def topC (cube : Nat) : Nat := rotate cube 5

/-- `SOLVED_CUBE` from `state_table.c` (= 1,607,666,046). -/
def SOLVED_CUBE : Nat := 0x5FD3097E

/-- `NUMBER_OF_CUBES` from `state_table.c`. -/
def NUMBER_OF_CUBES : Nat := 3674160

/-- `SIZE_OF_CUBE` from `state_table.c`: bytes per record. -/
def SIZE_OF_CUBE : Nat := 5

/-- The configurations reachable from the solved cube by the six moves
(the "reachable state space" of the spec). -/
inductive Reachable : Nat → Prop where
  | solved : Reachable SOLVED_CUBE
  | step (cube turn : Nat) (h : Reachable cube) (ht : turn < 6) :
      Reachable (rotate cube turn)

/-! ## Arithmetic facts about `rotate` -/

/-- The `i`-th base-21 digit of a configuration (piece `i`'s state). -/
def digit (cube i : Nat) : Nat := cube / 21 ^ i % 21

/-! ## Position permutations: reachable configurations are nonzero

Each turn row maps the three orientations at one position to states at a
single new position, and the induced position map is a permutation.  Hence
along the build the seven piece positions of every reachable configuration
are pairwise distinct, which rules out the configuration value 0 (all
pieces at position 0).  This is needed because `find_index` cannot
represent a record with value 0 (its four zero bytes read as an empty
slot). -/

/-- The position map a turn row induces on piece positions. -/
def posmap (turn p : Nat) : Nat := tt turn (3 * p) / 3

/-- The seven piece positions of `cube` are pairwise distinct. -/
def PosPerm (cube : Nat) : Prop :=
  ∀ i < 7, ∀ j < 7, digit cube i / 3 = digit cube j / 3 → i = j

/-! ## The queue (`queue.c`)

The circular buffer with `base`, `head`, `tail` and `cells_used` cursors
implements a bounded FIFO; it is modelled by the list of currently queued
entries (head of the list = head of the queue) plus the capacity. -/

structure Queue where
  cells : List Int
  max_cells : Nat

/-- `createQueue` from `queue.c` (allocation failure aside). -/
def createQueue (max_cells : Nat) : Queue := ⟨[], max_cells⟩

/-- `enqueue` from `queue.c`: returns 0 on success, -1 on overflow (the
element is dropped and the queue unchanged). -/
def enqueue (q : Queue) (element : Int) : Int × Queue :=
  if q.max_cells ≤ q.cells.length then (-1, q)
  else (0, ⟨q.cells ++ [element], q.max_cells⟩)

/-- `dequeue` from `queue.c`: returns the head, or -1 if the queue is
empty. -/
def dequeue (q : Queue) : Int × Queue :=
  match q.cells with
  | [] => (-1, q)
  | x :: xs => (x, ⟨xs, q.max_cells⟩)

/-- `peek` from `queue.c`: returns the head without removing it, or -1 if
the queue is empty. -/
def peek (q : Queue) : Int :=
  match q.cells with
  | [] => -1
  | x :: _ => x

/-! ## The state table (`state_table.c`)

A slot holds a 5-byte record: 4 big-endian value bytes and a turn byte.
A slot is modelled as the pair `(value, turn)`; every read the C code
performs on the value goes through its bytes (`byteOf`), so the
byte-level behaviour — in particular that a stored value 0 is
indistinguishable from an empty (zero-filled) slot — is preserved. -/

/-- A state table: slot index to `(value, turn byte)`. -/
abbrev StateTable := Nat → Nat × Nat

/-- `make_state_table`: `calloc` zero-fills all slots. -/
def make_state_table : StateTable := fun _ => (0, 0)

/-- Big-endian byte `k` (0 = least significant) of a stored value:
`(unsigned char)(cube >> 8k)` in the source. -/
def byteOf (v k : Nat) : Nat := v / 2 ^ (8 * k) % 256

/-- The loop body of `find_index`, scanning slots `i, i+1, ...`;
`fuel = NUMBER_OF_CUBES - i` mirrors the loop bound `i < NUMBER_OF_CUBES`.
`none` means the loop ran off the end of the table without returning
(`find_index` is a non-void function with no return after the loop:
undefined behaviour).  The four probe bytes `b3 b2 b1 b0` are the
big-endian bytes of the cube being looked up. -/
def find_index_go (t : StateTable) (b3 b2 b1 b0 : Nat) (i fuel : Nat) :
    Option Int :=
  match fuel with
  | 0 => none
  | fuel + 1 =>
    let v := (t i).1
    if byteOf v 3 = 0 ∧ byteOf v 2 = 0 ∧ byteOf v 1 = 0 ∧ byteOf v 0 = 0 then
      some (i : Int)
    else if byteOf v 3 < b3 then find_index_go t b3 b2 b1 b0 (i + 1) fuel
    else if b3 < byteOf v 3 then some (i : Int)
    else if byteOf v 2 < b2 then find_index_go t b3 b2 b1 b0 (i + 1) fuel
    else if b2 < byteOf v 2 then some (i : Int)
    else if byteOf v 1 < b1 then find_index_go t b3 b2 b1 b0 (i + 1) fuel
    else if b1 < byteOf v 1 then some (i : Int)
    else if byteOf v 0 < b0 then find_index_go t b3 b2 b1 b0 (i + 1) fuel
    else if b0 < byteOf v 0 then some (i : Int)
    else some (-1)

/-- `find_index` from `state_table.c`. -/
def find_index (t : StateTable) (cube : Nat) : Option Int :=
  find_index_go t (byteOf cube 3) (byteOf cube 2) (byteOf cube 1)
    (byteOf cube 0) 0 NUMBER_OF_CUBES

/-- `shift_data_up` from `state_table.c`: slots `index .. NUMBER_OF_CUBES-2`
move one slot up; the record in the last slot is overwritten. -/
def shift_data_up (t : StateTable) (index : Nat) : StateTable :=
  fun s =>
    if index < s ∧ s ≤ NUMBER_OF_CUBES - 1 then t (s - 1) else t s

/-- `add_state` from `state_table.c`.  Returns the C result (0 = already
present, 1 = inserted) together with the updated table; `none` if
`find_index` ran off the end of the table (undefined behaviour).  The turn
is stored as a byte (`char` truncation). -/
def add_state (t : StateTable) (cube : Nat) (turn : Nat) :
    Option (Nat × StateTable) :=
  match find_index t cube with
  | none => none
  | some idx =>
    if idx = -1 then some (0, t)
    else
      let shifted := shift_data_up t idx.toNat
      some (1, fun s => if s = idx.toNat then (cube, turn % 256) else shifted s)

/-- The do/while loop of `get_turn`, binary-searching slots `mn .. mx`.
The reconstructed `this_cube` and the returned turn byte follow the C
`int`/`char` reinterpretations.  The search window shrinks at every
iteration, so any `fuel > mx - mn` makes the 0 branch unreachable;
`get_turn` passes `NUMBER_OF_CUBES + 1`. -/
def get_turn_go (t : StateTable) (cube : Nat) (mn mx : Int) (fuel : Nat) :
    Int :=
  match fuel with
  | 0 => -2
  | fuel + 1 =>
    let middle := mn + (mx - mn).tdiv 2
    let v := (t middle.toNat).1
    let tcN : Nat := byteOf v 3 * 2 ^ 24 + byteOf v 2 * 2 ^ 16 +
      byteOf v 1 * 2 ^ 8 + byteOf v 0
    let this_cube : Int :=
      if tcN < 2 ^ 31 then (tcN : Int) else (tcN : Int) - 2 ^ 32
    if this_cube < (cube : Int) then
      if middle + 1 ≤ mx then get_turn_go t cube (middle + 1) mx fuel else -1
    else if (cube : Int) < this_cube then
      if mn ≤ middle - 1 then get_turn_go t cube mn (middle - 1) fuel else -1
    else
      let b := (t middle.toNat).2 % 256
      if b < 128 then (b : Int) else (b : Int) - 256

/-- `get_turn` from `state_table.c`: binary search over all
`NUMBER_OF_CUBES` slots; returns the stored turn byte (as a `char`) on an
exact match and -1 otherwise. -/
def get_turn (t : StateTable) (cube : Nat) : Int :=
  get_turn_go t cube 0 ((NUMBER_OF_CUBES : Int) - 1) (NUMBER_OF_CUBES + 1)

/-- The byte stream `write_state_table` persists:
`fwrite(state_table, SIZE_OF_CUBE, NUMBER_OF_CUBES, file)` writes all
`NUMBER_OF_CUBES` slots, 4 big-endian value bytes then the turn byte. -/
def write_state_table (t : StateTable) : List Nat :=
  (List.range NUMBER_OF_CUBES).flatMap fun i =>
    [byteOf (t i).1 3, byteOf (t i).1 2, byteOf (t i).1 1, byteOf (t i).1 0,
      (t i).2 % 256]

/-! ## The table builder (`fill_state_table`) -/

/-- One `if(add_state(...)){ enqueue(...); count++; }` block of the BFS
loop body.  Note that the result of `enqueue` is discarded, exactly as in
the source. -/
def addAndEnqueue (s : StateTable × Queue) (cube : Nat) (code : Nat) :
    Option (StateTable × Queue) :=
  match add_state s.1 cube code with
  | none => none
  | some (r, t') =>
    if r ≠ 0 then some (t', (enqueue s.2 (cube : Int)).2)
    else some (t', s.2)

/-- One iteration of the `while(peek(queue) != 0)` body of
`fill_state_table`: dequeue, compute the six neighbours, add each to the
table and (if new) to the queue.  Feeding the `-1` empty indicator of
`dequeue` — or any out-of-range value — to `rotate` reads `turn_table`
out of bounds, which is undefined behaviour (`none`). -/
def fillStep (s : StateTable × Queue) : Option (StateTable × Queue) :=
  let d := dequeue s.2
  let this_cube := d.1
  let q := d.2
  if this_cube < 0 ∨ (21 ^ 7 : Int) ≤ this_cube then none
  else
    let c := this_cube.toNat
    do
      let s1 ← addAndEnqueue (s.1, q) (frontC c) 0x01
      let s2 ← addAndEnqueue s1 (frontCC c) 0x02
      let s3 ← addAndEnqueue s2 (leftC c) 0x03
      let s4 ← addAndEnqueue s3 (leftCC c) 0x04
      let s5 ← addAndEnqueue s4 (topC c) 0x05
      addAndEnqueue s5 (topCC c) 0x06

/-- The build state of `fill_state_table` just before entering the loop:
empty table, and the solved cube enqueued to seed the BFS (that enqueue's
result is also discarded in the source). -/
def initBuild : StateTable × Queue :=
  (make_state_table,
    (enqueue (createQueue NUMBER_OF_CUBES) ((SOLVED_CUBE : Nat) : Int)).2)

/-- The build state after `n` iterations of the BFS loop body. -/
def buildAfter : Nat → Option (StateTable × Queue)
  | 0 => some initBuild
  | n + 1 => (buildAfter n).bind fillStep

/-- The `while(peek(queue) != 0)` loop of `fill_state_table`.  It exits
normally (`some`) only when `peek` returns 0; `none` covers both
undefined behaviour inside the body and fuel exhaustion. -/
def fillLoop (fuel : Nat) (s : StateTable × Queue) :
    Option (StateTable × Queue) :=
  match fuel with
  | 0 => none
  | fuel + 1 =>
    if peek s.2 ≠ 0 then
      match fillStep s with
      | none => none
      | some s' => fillLoop fuel s'
    else some s

/-! ## The solver (`solve_cube`) -/

/-- What `solve_cube` can produce. -/
inductive SolveResult where
  /-- `solve_cube` returned `NULL` (`get_turn` reported -1). -/
  | null : SolveResult
  /-- The 0-terminated turn sequence (listed without the terminator). -/
  | seq : List Int → SolveResult
  /-- The loop wrote past the 15-byte `turn_sequence` buffer: undefined
  behaviour. -/
  | bufferOverrun : SolveResult
  deriving DecidableEq

/-- The do/while loop of `solve_cube`.  `acc` is the contents of
`turn_sequence` so far and `count` the write position; `fuel` bounds the
number of iterations (`none` = still looping after `fuel` steps). -/
def solve_cube_go (t : StateTable) (cube : Nat) (acc : List Int)
    (count : Nat) (fuel : Nat) : Option SolveResult :=
  match fuel with
  | 0 => none
  | fuel + 1 =>
    let this_turn := get_turn t cube
    if this_turn = -1 then some .null
    else if 15 ≤ count then some .bufferOverrun
    else if this_turn = 0 then some (.seq acc)
    else
      let cube' :=
        if this_turn = 1 then frontCC cube
        else if this_turn = 2 then frontC cube
        else if this_turn = 3 then leftCC cube
        else if this_turn = 4 then leftC cube
        else if this_turn = 5 then topCC cube
        else if this_turn = 6 then topC cube
        else cube
      solve_cube_go t cube' (acc ++ [this_turn]) (count + 1) fuel

/-- `solve_cube` from `state_table.c`. -/
def solve_cube (t : StateTable) (cube : Nat) (fuel : Nat) :
    Option SolveResult :=
  solve_cube_go t cube [] 0 fuel

/-! ## Specification of `find_index` and `add_state` on well-formed tables -/

/-- The table holds the record `(v, turn)` in some slot. -/
def HasRec (t : StateTable) (v turn : Nat) : Prop :=
  ∃ i, i < NUMBER_OF_CUBES ∧ t i = (v, turn)

/-- Booleanized record search over the first `n` slots (used for concrete
counterexample computations). -/
def hasRecordUpTo (t : StateTable) (n v turn : Nat) : Bool :=
  (List.range n).any fun i => decide (t i = (v, turn))

/-- Well-formed build table: `count` records occupy slots
`0 .. count - 1` with strictly increasing positive values below `2 ^ 31`;
all later slots are zero-filled. -/
structure Wf (t : StateTable) (count : Nat) : Prop where
  pos : ∀ i, i < count → 0 < (t i).1
  lt31 : ∀ i, i < count → (t i).1 < 2 ^ 31
  sorted : ∀ i j, i < j → j < count → (t i).1 < (t j).1
  zeroed : ∀ i, count ≤ i → t i = (0, 0)

/-! ## The build invariant -/

/-- The queue invariant maintained by the BFS: full capacity
`NUMBER_OF_CUBES`, and every queued entry is (the `Int` image of) a
reachable configuration. -/
def QueueInv (q : Queue) : Prop :=
  q.max_cells = NUMBER_OF_CUBES ∧
    ∀ x ∈ q.cells, ∃ c : Nat, x = (c : Int) ∧ Reachable c

/-- A completely filled, strictly sorted table: every slot holds a record
with a positive value below `2^31` and a turn byte below 128. -/
def FullSorted (t : StateTable) : Prop :=
  (∀ i, i < NUMBER_OF_CUBES →
    0 < (t i).1 ∧ (t i).1 < 2 ^ 31 ∧ (t i).2 < 128) ∧
  ∀ i j, i < j → j < NUMBER_OF_CUBES → (t i).1 < (t j).1

/-! ## Concrete tables used as witnesses and counterexamples -/

/-- A partially filled table: one record `(5, 1)` in slot 0, all other
slots empty.  Its filled records are trivially strictly ascending. -/
def partialTable : StateTable := fun i => if i = 0 then (5, 1) else (0, 0)

/-- A completely filled, strictly sorted table (slot `i` holds value
`i + 1` with move code 1). -/
def fullTable : StateTable := fun i => (i + 1, 1)

/-- A completely filled, strictly sorted table that stores the two
records every completed build contains for the solve cycle:
`frontC SOLVED_CUBE = 1607621429` tagged with move code 1 and
`SOLVED_CUBE = 1607666046` tagged with move code 2; all other slots are
filler records. -/
def cycleTable : StateTable := fun s =>
  if s < NUMBER_OF_CUBES - 2 then (s + 1, 3)
  else if s = NUMBER_OF_CUBES - 2 then (1607621429, 1)
  else (1607666046, 2)

/-! ## Proofs -/

example : SOLVED_CUBE = 1607666046 := by decide

example : frontC SOLVED_CUBE = 1607621429 := by decide

example : frontCC (frontC SOLVED_CUBE) = SOLVED_CUBE := by decide

lemma tt_lt_21 (turn s : Nat) : tt turn s < 21 := by
  have h6 : ∀ t, t < 6 → ∀ x, x < 21 → tt t x < 21 := by decide
  rcases lt_or_ge turn 6 with ht | ht
  · rcases lt_or_ge s 21 with hs | hs
    · exact h6 turn ht s hs
    · have hlen : (turn_table.getD turn []).length = 21 := by
        interval_cases turn <;> rfl
      unfold tt
      rw [List.getD_eq_default]
      · omega
      · omega
  · have ht' : turn_table.length ≤ turn := by simp [turn_table]; omega
    unfold tt
    rw [List.getD_eq_default _ _ ht']
    simp

/-- `rotate` written in terms of the base-21 digits of its argument.
The mixed mod/div decomposition in the source equals digit extraction. -/
lemma rotate_eq_digits (cube turn : Nat) (h : cube < 21 ^ 7) :
    rotate cube turn =
      tt turn (digit cube 0) + tt turn (digit cube 1) * 21 ^ 1 +
      tt turn (digit cube 2) * 21 ^ 2 + tt turn (digit cube 3) * 21 ^ 3 +
      tt turn (digit cube 4) * 21 ^ 4 + tt turn (digit cube 5) * 21 ^ 5 +
      tt turn (digit cube 6) * 21 ^ 6 := by
  unfold rotate digit c21
  norm_num
  have e6 : cube / 85766121 % 21 = cube / 85766121 := by omega
  have e5 : cube / 4084101 % 21 = cube % 85766121 / 4084101 := by omega
  have e4 : cube / 194481 % 21 = cube % 4084101 / 194481 := by omega
  have e3 : cube / 9261 % 21 = cube % 194481 / 9261 := by omega
  have e2 : cube / 441 % 21 = cube % 9261 / 441 := by omega
  have e1 : cube / 21 % 21 = cube % 441 / 21 := by omega
  rw [e6, e5, e4, e3, e2, e1]

lemma digit_lt (cube i : Nat) : digit cube i < 21 := Nat.mod_lt _ (by norm_num)

/-- Extracting digit `j` from a 7-digit base-21 recombination. -/
lemma recomb_digit (s0 s1 s2 s3 s4 s5 s6 : Nat) (h0 : s0 < 21) (h1 : s1 < 21)
    (h2 : s2 < 21) (h3 : s3 < 21) (h4 : s4 < 21) (h5 : s5 < 21) (h6 : s6 < 21) :
    let e := s0 + s1 * 21 ^ 1 + s2 * 21 ^ 2 + s3 * 21 ^ 3 + s4 * 21 ^ 4 +
      s5 * 21 ^ 5 + s6 * 21 ^ 6
    digit e 0 = s0 ∧ digit e 1 = s1 ∧ digit e 2 = s2 ∧ digit e 3 = s3 ∧
      digit e 4 = s4 ∧ digit e 5 = s5 ∧ digit e 6 = s6 := by
  unfold digit
  norm_num
  omega

/-- A 7-digit base-21 recombination is below `21 ^ 7`. -/
lemma recomb_lt (s0 s1 s2 s3 s4 s5 s6 : Nat) (h0 : s0 < 21) (h1 : s1 < 21)
    (h2 : s2 < 21) (h3 : s3 < 21) (h4 : s4 < 21) (h5 : s5 < 21) (h6 : s6 < 21) :
    s0 + s1 * 21 ^ 1 + s2 * 21 ^ 2 + s3 * 21 ^ 3 + s4 * 21 ^ 4 +
      s5 * 21 ^ 5 + s6 * 21 ^ 6 < 21 ^ 7 := by
  norm_num
  omega

/-- A configuration below `21 ^ 7` is the recombination of its digits. -/
lemma digits_recombine (cube : Nat) (h : cube < 21 ^ 7) :
    digit cube 0 + digit cube 1 * 21 ^ 1 + digit cube 2 * 21 ^ 2 +
      digit cube 3 * 21 ^ 3 + digit cube 4 * 21 ^ 4 + digit cube 5 * 21 ^ 5 +
      digit cube 6 * 21 ^ 6 = cube := by
  unfold digit
  norm_num at h ⊢
  omega

/-- Every `rotate` output lies below `21 ^ 7`. -/
lemma rotate_lt (cube turn : Nat) (h : cube < 21 ^ 7) :
    rotate cube turn < 21 ^ 7 := by
  rw [rotate_eq_digits cube turn h]
  exact recomb_lt _ _ _ _ _ _ _ (tt_lt_21 _ _) (tt_lt_21 _ _) (tt_lt_21 _ _)
    (tt_lt_21 _ _) (tt_lt_21 _ _) (tt_lt_21 _ _) (tt_lt_21 _ _)

/-- The digits of `rotate cube turn` are the digit-wise images through
the turn's permutation row. -/
lemma digit_rotate (cube turn : Nat) (h : cube < 21 ^ 7) (j : Nat) (hj : j ≤ 6) :
    digit (rotate cube turn) j = tt turn (digit cube j) := by
  rw [rotate_eq_digits cube turn h]
  have := recomb_digit (tt turn (digit cube 0)) (tt turn (digit cube 1))
    (tt turn (digit cube 2)) (tt turn (digit cube 3)) (tt turn (digit cube 4))
    (tt turn (digit cube 5)) (tt turn (digit cube 6))
    (tt_lt_21 _ _) (tt_lt_21 _ _) (tt_lt_21 _ _) (tt_lt_21 _ _)
    (tt_lt_21 _ _) (tt_lt_21 _ _) (tt_lt_21 _ _)
  simp only at this
  interval_cases j <;> tauto

/-- If two rows are mutually inverse on the 21 piece states then the two
rotations cancel on any in-range configuration. -/
lemma rotate_rotate_cancel (a b : Nat) (hinv : ∀ s, s < 21 → tt b (tt a s) = s)
    (cube : Nat) (h : cube < 21 ^ 7) : rotate (rotate cube a) b = cube := by
  have h2 : rotate cube a < 21 ^ 7 := rotate_lt cube a h
  rw [rotate_eq_digits _ b h2]
  have hd : ∀ j, j ≤ 6 → tt b (digit (rotate cube a) j) = digit cube j := by
    intro j hj
    rw [digit_rotate cube a h j hj]
    exact hinv _ (digit_lt _ _)
  rw [hd 0 (by omega), hd 1 (by omega), hd 2 (by omega), hd 3 (by omega),
    hd 4 (by omega), hd 5 (by omega), hd 6 (by omega)]
  exact digits_recombine cube h

lemma reachable_lt (cube : Nat) (h : Reachable cube) : cube < 21 ^ 7 := by
  induction h with
  | solved => decide
  | step c t _ _ ih => exact rotate_lt c t ih

lemma tt_pos (turn : Nat) (ht : turn < 6) (s : Nat) (hs : s < 21) :
    tt turn s / 3 = posmap turn (s / 3) := by
  have h : ∀ t < 6, ∀ x < 21, tt t x / 3 = posmap t (x / 3) := by decide
  exact h turn ht s hs

lemma posmap_inj (turn : Nat) (ht : turn < 6) (p q : Nat) (hp : p < 7)
    (hq : q < 7) (h : posmap turn p = posmap turn q) : p = q := by
  have key : ∀ t < 6, ∀ a < 7, ∀ b < 7, posmap t a = posmap t b → a = b := by
    decide
  exact key turn ht p hp q hq h

lemma posPerm_rotate (cube turn : Nat) (hc : cube < 21 ^ 7) (ht : turn < 6)
    (h : PosPerm cube) : PosPerm (rotate cube turn) := by
  intro i hi j hj hij
  have di : digit (rotate cube turn) i = tt turn (digit cube i) :=
    digit_rotate cube turn hc i (by omega)
  have dj : digit (rotate cube turn) j = tt turn (digit cube j) :=
    digit_rotate cube turn hc j (by omega)
  rw [di, dj, tt_pos turn ht _ (digit_lt _ _), tt_pos turn ht _ (digit_lt _ _)]
    at hij
  have hpi : digit cube i / 3 < 7 := by have := digit_lt cube i; omega
  have hpj : digit cube j / 3 < 7 := by have := digit_lt cube j; omega
  exact h i hi j hj (posmap_inj turn ht _ _ hpi hpj hij)

lemma posPerm_solved : PosPerm SOLVED_CUBE := by
  unfold PosPerm
  decide

lemma reachable_posPerm (cube : Nat) (h : Reachable cube) : PosPerm cube := by
  induction h with
  | solved => exact posPerm_solved
  | step c t hr ht ih => exact posPerm_rotate c t (reachable_lt c hr) ht ih

lemma posPerm_ne_zero (cube : Nat) (h : PosPerm cube) : cube ≠ 0 := by
  intro h0
  subst h0
  have : (0 : Nat) = 1 := h 0 (by omega) 1 (by omega) (by decide)
  omega

lemma reachable_pos (cube : Nat) (h : Reachable cube) : 0 < cube :=
  Nat.pos_of_ne_zero (posPerm_ne_zero cube (reachable_posPerm cube h))

lemma wf_make_state_table : Wf make_state_table 0 := by
  refine ⟨?_, ?_, ?_, ?_⟩ <;> intro i <;> simp [make_state_table]

lemma byteOf3 (v : Nat) : byteOf v 3 = v / 16777216 % 256 := by
  norm_num [byteOf]

lemma byteOf2 (v : Nat) : byteOf v 2 = v / 65536 % 256 := by
  norm_num [byteOf]

lemma byteOf1 (v : Nat) : byteOf v 1 = v / 256 % 256 := by
  norm_num [byteOf]

lemma byteOf0 (v : Nat) : byteOf v 0 = v % 256 := by
  norm_num [byteOf]

/-- One unfolding of the `find_index` loop body. -/
lemma find_index_go_one (t : StateTable) (b3 b2 b1 b0 i fuel : Nat) :
    find_index_go t b3 b2 b1 b0 i (fuel + 1) =
      (let v := (t i).1
       if byteOf v 3 = 0 ∧ byteOf v 2 = 0 ∧ byteOf v 1 = 0 ∧ byteOf v 0 = 0
       then some (i : Int)
       else if byteOf v 3 < b3 then find_index_go t b3 b2 b1 b0 (i + 1) fuel
       else if b3 < byteOf v 3 then some (i : Int)
       else if byteOf v 2 < b2 then find_index_go t b3 b2 b1 b0 (i + 1) fuel
       else if b2 < byteOf v 2 then some (i : Int)
       else if byteOf v 1 < b1 then find_index_go t b3 b2 b1 b0 (i + 1) fuel
       else if b1 < byteOf v 1 then some (i : Int)
       else if byteOf v 0 < b0 then find_index_go t b3 b2 b1 b0 (i + 1) fuel
       else if b0 < byteOf v 0 then some (i : Int)
       else some (-1)) := rfl

/-- The scan steps over a filled slot whose value is below the probe. -/
lemma find_index_go_step_lt (t : StateTable) (c i fuel : Nat)
    (h32 : (t i).1 < 2 ^ 32) (hc32 : c < 2 ^ 32) (hv0 : 0 < (t i).1)
    (hvc : (t i).1 < c) :
    find_index_go t (byteOf c 3) (byteOf c 2) (byteOf c 1) (byteOf c 0) i
        (fuel + 1) =
      find_index_go t (byteOf c 3) (byteOf c 2) (byteOf c 1) (byteOf c 0)
        (i + 1) fuel := by
  rw [find_index_go_one]
  simp only [byteOf3, byteOf2, byteOf1, byteOf0]
  norm_num at h32 hc32
  split_ifs <;> first | rfl | omega

/-- The scan stops (insertion point) at a filled slot whose value exceeds
the probe. -/
lemma find_index_go_step_gt (t : StateTable) (c i fuel : Nat)
    (h32 : (t i).1 < 2 ^ 32) (hc32 : c < 2 ^ 32)
    (hvc : c < (t i).1) :
    find_index_go t (byteOf c 3) (byteOf c 2) (byteOf c 1) (byteOf c 0) i
        (fuel + 1) = some (i : Int) := by
  rw [find_index_go_one]
  simp only [byteOf3, byteOf2, byteOf1, byteOf0]
  norm_num at h32 hc32
  split_ifs <;> first | rfl | omega

/-- The scan reports "already present" at a filled slot holding exactly
the probed value. -/
lemma find_index_go_step_eq (t : StateTable) (c i fuel : Nat)
    (h32 : (t i).1 < 2 ^ 32) (hc32 : c < 2 ^ 32) (hv0 : 0 < (t i).1)
    (hvc : (t i).1 = c) :
    find_index_go t (byteOf c 3) (byteOf c 2) (byteOf c 1) (byteOf c 0) i
        (fuel + 1) = some (-1) := by
  rw [find_index_go_one]
  simp only [byteOf3, byteOf2, byteOf1, byteOf0]
  norm_num at h32 hc32
  split_ifs <;> first | rfl | omega

/-- The scan stops at a zero-filled (empty) slot. -/
lemma find_index_go_step_empty (t : StateTable) (b3 b2 b1 b0 i fuel : Nat)
    (hz : (t i).1 = 0) :
    find_index_go t b3 b2 b1 b0 i (fuel + 1) = some (i : Int) := by
  rw [find_index_go_one]
  simp [byteOf3, byteOf2, byteOf1, byteOf0, hz]

/-- Behaviour of the `find_index` scan over a well-formed table: it
returns -1 when the probed value sits in a filled slot, and otherwise the
index of the first slot whose value exceeds it (or of the first empty
slot). -/
lemma find_index_go_spec (t : StateTable) (count : Nat) (c : Nat)
    (hwf : Wf t count) (hcount : count < NUMBER_OF_CUBES)
    (hc0 : 0 < c) (hc31 : c < 2 ^ 31) :
    ∀ fuel i, i + fuel = NUMBER_OF_CUBES → i ≤ count →
      (∀ j, j < i → (t j).1 < c) →
      (∃ j, i ≤ j ∧ j < count ∧ (t j).1 = c ∧
        find_index_go t (byteOf c 3) (byteOf c 2) (byteOf c 1) (byteOf c 0) i
          fuel = some (-1)) ∨
      (∃ p : Nat, i ≤ p ∧ p ≤ count ∧ (∀ j, j < p → (t j).1 < c) ∧
        (p < count → c < (t p).1) ∧
        find_index_go t (byteOf c 3) (byteOf c 2) (byteOf c 1) (byteOf c 0) i
          fuel = some (p : Int)) := by
  intro fuel
  have hc32 : c < 2 ^ 32 := by omega
  induction fuel with
  | zero =>
    intro i hiN hic _
    omega
  | succ fuel ih =>
    intro i hiN hic hbelow
    rcases Nat.lt_or_ge i count with hi | hi
    · -- slot `i` holds a record
      have hpos := hwf.pos i hi
      have h32 : (t i).1 < 2 ^ 32 := by have := hwf.lt31 i hi; omega
      rcases Nat.lt_trichotomy (t i).1 c with hvc | hvc | hvc
      · -- record value below the probe: the scan continues
        rw [find_index_go_step_lt t c i fuel h32 hc32 hpos hvc]
        have hbelow' : ∀ j, j < i + 1 → (t j).1 < c := by
          intro j hj
          rcases Nat.lt_or_ge j i with h | h
          · exact hbelow j h
          · have hji : j = i := by omega
            simpa [hji] using hvc
        rcases ih (i + 1) (by omega) (by omega) hbelow' with
          ⟨j, hj1, hj2, hj3, hj4⟩ | ⟨p, hp1, hp2, hp3, hp4, hp5⟩
        · exact Or.inl ⟨j, by omega, hj2, hj3, hj4⟩
        · exact Or.inr ⟨p, by omega, hp2, hp3, hp4, hp5⟩
      · -- exact hit: returns -1
        exact Or.inl ⟨i, le_refl i, hi, hvc,
          find_index_go_step_eq t c i fuel h32 hc32 hpos hvc⟩
      · -- record value above the probe: insertion point found
        exact Or.inr ⟨i, le_refl i, by omega, hbelow, fun _ => hvc,
          find_index_go_step_gt t c i fuel h32 hc32 hvc⟩
    · -- slot `i` is the first empty slot (`i = count`)
      have hz : (t i).1 = 0 := by rw [hwf.zeroed i (by omega)]
      exact Or.inr ⟨i, le_refl i, by omega, hbelow, by omega,
        find_index_go_step_empty t _ _ _ _ i fuel hz⟩

/-- `find_index` returns -1 exactly on values already present. -/
lemma find_index_present (t : StateTable) (count c : Nat) (hwf : Wf t count)
    (hcount : count < NUMBER_OF_CUBES) (hc0 : 0 < c) (hc31 : c < 2 ^ 31)
    (j : Nat) (hj : j < count) (hv : (t j).1 = c) :
    find_index t c = some (-1) := by
  unfold find_index
  rcases find_index_go_spec t count c hwf hcount hc0 hc31 NUMBER_OF_CUBES 0
      (by omega) (by omega) (by intro j hj; omega) with
    ⟨j', _, _, _, h⟩ | ⟨p, _, hp2, hp3, hp4, hp5⟩
  · exact h
  · exfalso
    rcases Nat.lt_or_ge j p with h' | h'
    · have := hp3 j h'
      omega
    · rcases Nat.eq_or_lt_of_le h' with h'' | h''
      · have hcp := hp4 (by omega)
        rw [h'', hv] at hcp
        omega
      · have hcp : c < (t p).1 := hp4 (by omega)
        have := hwf.sorted p j h'' hj
        omega

/-- `find_index` on an absent value returns the sorted insertion point. -/
lemma find_index_absent (t : StateTable) (count c : Nat) (hwf : Wf t count)
    (hcount : count < NUMBER_OF_CUBES) (hc0 : 0 < c) (hc31 : c < 2 ^ 31)
    (hnone : ∀ j, j < count → (t j).1 ≠ c) :
    ∃ p : Nat, p ≤ count ∧ (∀ j, j < p → (t j).1 < c) ∧
      (p < count → c < (t p).1) ∧ find_index t c = some (p : Int) := by
  unfold find_index
  rcases find_index_go_spec t count c hwf hcount hc0 hc31 NUMBER_OF_CUBES 0
      (by omega) (by omega) (by intro j hj; omega) with
    ⟨j, _, hj2, hj3, _⟩ | ⟨p, _, hp2, hp3, hp4, hp5⟩
  · exact absurd hj3 (hnone j hj2)
  · exact ⟨p, hp2, hp3, hp4, hp5⟩

/-- `add_state` on a value already present: returns 0, table unchanged. -/
lemma add_state_present (t : StateTable) (count c turn : Nat)
    (hwf : Wf t count) (hcount : count < NUMBER_OF_CUBES) (hc0 : 0 < c)
    (hc31 : c < 2 ^ 31) (j : Nat) (hj : j < count) (hv : (t j).1 = c) :
    add_state t c turn = some (0, t) := by
  unfold add_state
  rw [find_index_present t count c hwf hcount hc0 hc31 j hj hv]
  rfl

/-- `add_state` on an absent value: returns 1 and inserts the record at
the sorted position, shifting later records one slot up; the table stays
well-formed with one more record. -/
lemma add_state_absent (t : StateTable) (count c turn : Nat) (hwf : Wf t count)
    (hcount : count < NUMBER_OF_CUBES) (hc0 : 0 < c) (hc31 : c < 2 ^ 31)
    (hnone : ∀ j, j < count → (t j).1 ≠ c) :
    ∃ (p : Nat) (t' : StateTable), p ≤ count ∧
      add_state t c turn = some (1, t') ∧
      t' p = (c, turn % 256) ∧
      (∀ s, s < p → t' s = t s) ∧
      (∀ s, p < s → s ≤ NUMBER_OF_CUBES - 1 → t' s = t (s - 1)) ∧
      (∀ s, NUMBER_OF_CUBES - 1 < s → t' s = t s) ∧
      Wf t' (count + 1) := by
  obtain ⟨p, hpc, hlt, hgt, hfi⟩ :=
    find_index_absent t count c hwf hcount hc0 hc31 hnone
  set t' : StateTable :=
    fun s => if s = p then (c, turn % 256) else shift_data_up t p s with ht'
  have hv_lo : ∀ s, s < p → t' s = t s := by
    intro s hs
    simp only [ht', shift_data_up]
    rw [if_neg (by omega), if_neg (by omega)]
  have hv_p : t' p = (c, turn % 256) := by
    simp [ht']
  have hv_hi : ∀ s, p < s → s ≤ NUMBER_OF_CUBES - 1 → t' s = t (s - 1) := by
    intro s hs1 hs2
    simp only [ht', shift_data_up]
    rw [if_neg (by omega), if_pos (by omega)]
  have hv_big : ∀ s, NUMBER_OF_CUBES - 1 < s → t' s = t s := by
    intro s hs
    have hsp : s ≠ p := by omega
    simp only [ht', shift_data_up]
    rw [if_neg hsp, if_neg (by omega)]
  have hgt' : ∀ k, p ≤ k → k < count → c < (t k).1 := by
    intro k hk1 hk2
    rcases Nat.eq_or_lt_of_le hk1 with h | h
    · rw [← h]
      exact hgt (by omega)
    · have h1 : c < (t p).1 := hgt (by omega)
      have h2 : (t p).1 < (t k).1 := hwf.sorted p k h hk2
      omega
  refine ⟨p, t', hpc, ?_, hv_p, hv_lo, hv_hi, hv_big, ?_⟩
  · unfold add_state
    rw [hfi]
    have hne : ((p : Nat) : Int) ≠ -1 := by omega
    show (if ((p : Nat) : Int) = -1 then some (0, t)
        else some (1, fun s => if s = ((p : Nat) : Int).toNat then
          (c, turn % 256) else shift_data_up t ((p : Nat) : Int).toNat s)) =
      some (1, t')
    rw [if_neg hne]
    simp only [Int.toNat_natCast]
  · -- well-formedness of the table with the record inserted
    have hval : ∀ i, i ≤ count → 0 < (t' i).1 ∧ (t' i).1 < 2 ^ 31 := by
      intro i hi
      rcases Nat.lt_trichotomy i p with h | h | h
      · rw [hv_lo i h]
        exact ⟨hwf.pos i (by omega), hwf.lt31 i (by omega)⟩
      · rw [h, hv_p]
        exact ⟨hc0, hc31⟩
      · rw [hv_hi i h (by omega)]
        exact ⟨hwf.pos (i - 1) (by omega), hwf.lt31 (i - 1) (by omega)⟩
    refine ⟨?_, ?_, ?_, ?_⟩
    · intro i hi
      exact (hval i (by omega)).1
    · intro i hi
      exact (hval i (by omega)).2
    · intro i j hij hj
      rcases Nat.lt_trichotomy i p with hi | hi | hi <;>
        rcases Nat.lt_trichotomy j p with hjp | hjp | hjp
      · rw [hv_lo i hi, hv_lo j hjp]
        exact hwf.sorted i j hij (by omega)
      · rw [hv_lo i hi, hjp, hv_p]
        exact hlt i hi
      · rw [hv_lo i hi, hv_hi j hjp (by omega)]
        have h1 : (t i).1 < c := hlt i hi
        have h2 : c < (t (j - 1)).1 := hgt' (j - 1) (by omega) (by omega)
        omega
      · omega
      · omega
      · rw [hi, hv_p, hv_hi j hjp (by omega)]
        exact hgt' (j - 1) (by omega) (by omega)
      · omega
      · omega
      · rw [hv_hi i hi (by omega), hv_hi j hjp (by omega)]
        exact hwf.sorted (i - 1) (j - 1) (by omega) (by omega)
    · intro i hi
      rcases Nat.lt_or_ge (NUMBER_OF_CUBES - 1) i with h | h
      · rw [hv_big i h]
        exact hwf.zeroed i (by omega)
      · rw [hv_hi i (by omega) h]
        exact hwf.zeroed (i - 1) (by omega)

/-- Combined `add_state` behaviour on well-formed tables: it always
succeeds, keeps the table well-formed, and never loses a record. -/
lemma add_state_mono (t : StateTable) (count c turn : Nat) (hwf : Wf t count)
    (hcount : count < NUMBER_OF_CUBES) (hc0 : 0 < c) (hc31 : c < 2 ^ 31) :
    ∃ r t' count', add_state t c turn = some (r, t') ∧ Wf t' count' ∧
      count ≤ count' ∧ count' ≤ count + 1 ∧
      (∀ v tn, 0 < v → HasRec t v tn → HasRec t' v tn) := by
  by_cases hpres : ∃ j, j < count ∧ (t j).1 = c
  · obtain ⟨j, hj, hv⟩ := hpres
    exact ⟨0, t, count,
      add_state_present t count c turn hwf hcount hc0 hc31 j hj hv, hwf,
      le_refl _, by omega, fun v tn _ h => h⟩
  · push_neg at hpres
    obtain ⟨p, t', hpc, hadd, hp, hlo, hhi, hbig, hwf'⟩ :=
      add_state_absent t count c turn hwf hcount hc0 hc31 hpres
    refine ⟨1, t', count + 1, hadd, hwf', by omega, by omega, ?_⟩
    intro v tn hv ⟨i, hiN, hi⟩
    have hic : i < count := by
      rcases Nat.lt_or_ge i count with h | h
      · exact h
      · rw [hwf.zeroed i h] at hi
        cases hi
        omega
    rcases Nat.lt_or_ge i p with h | h
    · exact ⟨i, hiN, by rw [hlo i h, hi]⟩
    · refine ⟨i + 1, by omega, ?_⟩
      rw [hhi (i + 1) (by omega) (by omega)]
      simpa using hi

lemma enqueue_queueInv (q : Queue) (c : Nat) (hq : QueueInv q)
    (hc : Reachable c) : QueueInv (enqueue q ((c : Nat) : Int)).2 := by
  unfold enqueue
  split_ifs with h
  · exact hq
  · refine ⟨hq.1, ?_⟩
    intro x hx
    rcases List.mem_append.mp hx with h' | h'
    · exact hq.2 x h'
    · have hx' : x = ((c : Nat) : Int) := by simpa using h'
      exact ⟨c, hx', hc⟩

lemma addAndEnqueue_spec (t : StateTable) (q : Queue) (count c code : Nat)
    (hwf : Wf t count) (hcount : count < NUMBER_OF_CUBES) (hq : QueueInv q)
    (hcR : Reachable c) :
    ∃ t' q' count', addAndEnqueue (t, q) c code = some (t', q') ∧
      Wf t' count' ∧ QueueInv q' ∧ count ≤ count' ∧ count' ≤ count + 1 ∧
      (∀ v tn, 0 < v → HasRec t v tn → HasRec t' v tn) := by
  have hc0 : 0 < c := reachable_pos c hcR
  have hc31 : c < 2 ^ 31 := by
    have := reachable_lt c hcR
    have h7 : (21 : Nat) ^ 7 < 2 ^ 31 := by norm_num
    omega
  obtain ⟨r, t', count', hadd, hwf', hle1, hle2, hpres⟩ :=
    add_state_mono t count c code hwf hcount hc0 hc31
  refine ⟨t', if r = 0 then q else (enqueue q ((c : Nat) : Int)).2, count',
    ?_, hwf', ?_, hle1, hle2, hpres⟩
  · unfold addAndEnqueue
    rw [hadd]
    by_cases hr : r = 0
    · simp [hr]
    · simp [hr]
  · by_cases hr : r = 0
    · simpa [hr] using hq
    · simpa [hr] using enqueue_queueInv q c hq hcR

lemma fillStep_spec (t : StateTable) (q : Queue) (count : Nat)
    (s' : StateTable × Queue) (hwf : Wf t count)
    (hcount : count + 6 ≤ NUMBER_OF_CUBES) (hq : QueueInv q)
    (hstep : fillStep (t, q) = some s') :
    ∃ count', Wf s'.1 count' ∧ QueueInv s'.2 ∧ count ≤ count' ∧
      count' ≤ count + 6 ∧
      (∀ v tn, 0 < v → HasRec t v tn → HasRec s'.1 v tn) := by
  unfold fillStep at hstep
  rcases hcq : q.cells with _ | ⟨x, xs⟩
  · rw [show dequeue (t, q).2 = (-1, q) by unfold dequeue; rw [hcq]] at hstep
    simp at hstep
  · rw [show dequeue (t, q).2 = (x, ⟨xs, q.max_cells⟩) by
      unfold dequeue; rw [hcq]] at hstep
    simp only [] at hstep
    obtain ⟨c, hxc, hcR⟩ := hq.2 x (by rw [hcq]; exact List.mem_cons_self x xs)
    have hclt : c < 21 ^ 7 := reachable_lt c hcR
    have hguard : ¬(x < 0 ∨ (21 ^ 7 : Int) ≤ x) := by
      rw [hxc]
      push_neg
      constructor
      · positivity
      · exact_mod_cast hclt
    rw [if_neg hguard] at hstep
    have hxto : x.toNat = c := by rw [hxc]; exact Int.toNat_natCast c
    rw [hxto] at hstep
    have hq1 : QueueInv ⟨xs, q.max_cells⟩ := by
      refine ⟨hq.1, ?_⟩
      intro y hy
      exact hq.2 y (by rw [hcq]; exact List.mem_cons_of_mem x hy)
    -- six neighbour steps
    have hR1 : Reachable (frontC c) := Reachable.step c 1 hcR (by omega)
    have hR2 : Reachable (frontCC c) := Reachable.step c 0 hcR (by omega)
    have hR3 : Reachable (leftC c) := Reachable.step c 3 hcR (by omega)
    have hR4 : Reachable (leftCC c) := Reachable.step c 2 hcR (by omega)
    have hR5 : Reachable (topC c) := Reachable.step c 5 hcR (by omega)
    have hR6 : Reachable (topCC c) := Reachable.step c 4 hcR (by omega)
    obtain ⟨t1, q1, n1, ha1, hw1, hq'1, hle1a, hle1b, hp1⟩ :=
      addAndEnqueue_spec t ⟨xs, q.max_cells⟩ count (frontC c) 0x01 hwf
        (by omega) hq1 hR1
    rw [ha1] at hstep
    simp only [Option.bind_eq_bind, Option.some_bind] at hstep
    obtain ⟨t2, q2, n2, ha2, hw2, hq'2, hle2a, hle2b, hp2⟩ :=
      addAndEnqueue_spec t1 q1 n1 (frontCC c) 0x02 hw1 (by omega) hq'1 hR2
    rw [ha2] at hstep
    simp only [Option.some_bind] at hstep
    obtain ⟨t3, q3, n3, ha3, hw3, hq'3, hle3a, hle3b, hp3⟩ :=
      addAndEnqueue_spec t2 q2 n2 (leftC c) 0x03 hw2 (by omega) hq'2 hR3
    rw [ha3] at hstep
    simp only [Option.some_bind] at hstep
    obtain ⟨t4, q4, n4, ha4, hw4, hq'4, hle4a, hle4b, hp4⟩ :=
      addAndEnqueue_spec t3 q3 n3 (leftCC c) 0x04 hw3 (by omega) hq'3 hR4
    rw [ha4] at hstep
    simp only [Option.some_bind] at hstep
    obtain ⟨t5, q5, n5, ha5, hw5, hq'5, hle5a, hle5b, hp5⟩ :=
      addAndEnqueue_spec t4 q4 n4 (topC c) 0x05 hw4 (by omega) hq'4 hR5
    rw [ha5] at hstep
    simp only [Option.some_bind] at hstep
    obtain ⟨t6, q6, n6, ha6, hw6, hq'6, hle6a, hle6b, hp6⟩ :=
      addAndEnqueue_spec t5 q5 n5 (topCC c) 0x06 hw5 (by omega) hq'5 hR6
    rw [ha6] at hstep
    have hs' : s' = (t6, q6) := by
      cases hstep
      rfl
    subst hs'
    refine ⟨n6, hw6, hq'6, by omega, by omega, ?_⟩
    intro v tn hv h
    exact hp6 v tn hv (hp5 v tn hv (hp4 v tn hv (hp3 v tn hv
      (hp2 v tn hv (hp1 v tn hv h)))))

lemma queueInv_init : QueueInv initBuild.2 := by
  constructor
  · rfl
  · intro x hx
    have hx' : x = ((SOLVED_CUBE : Nat) : Int) := by
      simpa [initBuild, enqueue, createQueue, NUMBER_OF_CUBES] using hx
    exact ⟨SOLVED_CUBE, hx', Reachable.solved⟩

/-- Invariant of the BFS build: as long as the table has spare capacity,
after `n` loop iterations the table is well-formed — its records occupy a
prefix of slots in strictly increasing order with no duplicate values —
and the queue holds only reachable configurations. -/
lemma buildAfter_inv : ∀ n, 6 * n + 6 ≤ NUMBER_OF_CUBES →
    ∀ s, buildAfter n = some s →
      ∃ count, count ≤ 6 * n ∧ Wf s.1 count ∧ QueueInv s.2 := by
  intro n
  induction n with
  | zero =>
    intro _ s hs
    have hs' : s = initBuild := by
      have : some initBuild = some s := by simpa [buildAfter] using hs
      cases this
      rfl
    subst hs'
    exact ⟨0, by omega, wf_make_state_table, queueInv_init⟩
  | succ n ih =>
    intro h6 s hs
    rw [buildAfter] at hs
    cases hb : buildAfter n with
    | none =>
      rw [hb] at hs
      simp at hs
    | some s0 =>
      rw [hb] at hs
      simp only [Option.some_bind] at hs
      obtain ⟨count, hcle, hwf, hq⟩ := ih (by omega) s0 hb
      obtain ⟨count', hwf', hq', hge, hle, _⟩ :=
        fillStep_spec s0.1 s0.2 count s hwf (by omega) hq hs
      exact ⟨count', by omega, hwf', hq'⟩

/-- From the second BFS iteration on, the table permanently holds the
record `(SOLVED_CUBE, 2)`: the solved configuration is re-discovered as
the front-counter-clockwise neighbour of `frontC SOLVED_CUBE` and
recorded with move code 2, and records are never removed. -/
lemma buildAfter_solvedRecord : ∀ n, 2 ≤ n → 6 * n + 6 ≤ NUMBER_OF_CUBES →
    ∀ s, buildAfter n = some s → HasRec s.1 SOLVED_CUBE 2 := by
  intro n
  induction n with
  | zero =>
    intro h2
    omega
  | succ n ih =>
    intro h2 h6 s hs
    rw [buildAfter] at hs
    cases hb : buildAfter n with
    | none =>
      rw [hb] at hs
      simp at hs
    | some s0 =>
      rw [hb] at hs
      simp only [Option.some_bind] at hs
      rcases Nat.lt_or_ge n 2 with hn | hn
      · -- here `n = 1`: the record appears during the second iteration
        have hn1 : n = 1 := by omega
        subst hn1
        have h2' : buildAfter 2 = some s := by
          show (buildAfter 1).bind fillStep = some s
          rw [hb]
          simpa using hs
        have hv : (buildAfter 2).map (fun z => z.1 11) =
            some (SOLVED_CUBE, 2) := by decide
        rw [h2'] at hv
        simp at hv
        exact ⟨11, by norm_num [NUMBER_OF_CUBES], hv⟩
      · obtain ⟨count, hcle, hwf, hq⟩ := buildAfter_inv n (by omega) s0 hb
        have hrec := ih hn (by omega) s0 hb
        obtain ⟨count', _, _, _, _, hpres⟩ :=
          fillStep_spec s0.1 s0.2 count s hwf (by omega) hq hs
        exact hpres SOLVED_CUBE 2 (by norm_num [SOLVED_CUBE]) hrec

/-! ## Correctness of `get_turn` on completely filled sorted tables -/

/-- Reassembling the four big-endian bytes recovers values below `2^32`. -/
lemma byte_recombine (v : Nat) (hv : v < 2 ^ 32) :
    byteOf v 3 * 2 ^ 24 + byteOf v 2 * 2 ^ 16 + byteOf v 1 * 2 ^ 8 +
      byteOf v 0 = v := by
  simp only [byteOf3, byteOf2, byteOf1, byteOf0]
  norm_num at hv ⊢
  omega

/-- One unfolding of the `get_turn` do/while body. -/
lemma get_turn_go_one (t : StateTable) (cube : Nat) (mn mx : Int)
    (fuel : Nat) :
    get_turn_go t cube mn mx (fuel + 1) =
      (let middle := mn + (mx - mn).tdiv 2
       let v := (t middle.toNat).1
       let tcN : Nat := byteOf v 3 * 2 ^ 24 + byteOf v 2 * 2 ^ 16 +
         byteOf v 1 * 2 ^ 8 + byteOf v 0
       let this_cube : Int :=
         if tcN < 2 ^ 31 then (tcN : Int) else (tcN : Int) - 2 ^ 32
       if this_cube < (cube : Int) then
         if middle + 1 ≤ mx then get_turn_go t cube (middle + 1) mx fuel
         else -1
       else if (cube : Int) < this_cube then
         if mn ≤ middle - 1 then get_turn_go t cube mn (middle - 1) fuel
         else -1
       else
         let b := (t middle.toNat).2 % 256
         if b < 128 then (b : Int) else (b : Int) - 256) := rfl

/-- The binary search never finds a value absent from the table. -/
lemma get_turn_go_notfound (t : StateTable) (c : Nat) (hc : c < 2 ^ 31)
    (hfull : FullSorted t)
    (hnone : ∀ i, i < NUMBER_OF_CUBES → (t i).1 ≠ c) :
    ∀ fuel (mn mx : Int), 0 ≤ mn → mn ≤ mx →
      mx < (NUMBER_OF_CUBES : Int) → (mx - mn).toNat < fuel →
      get_turn_go t c mn mx fuel = -1 := by
  intro fuel
  induction fuel with
  | zero =>
    intro mn mx h0 hle hmx hfuel
    omega
  | succ fuel ih =>
    intro mn mx h0 hle hmx hfuel
    rw [get_turn_go_one]
    simp only []
    have htdiv : (mx - mn).tdiv 2 = (mx - mn) / 2 :=
      Int.tdiv_eq_ediv (by omega) (by omega)
    set middle := mn + (mx - mn).tdiv 2 with hmiddef
    have hmid : mn ≤ middle ∧ middle ≤ mx := by
      rw [hmiddef, htdiv]
      omega
    have hmidN : middle.toNat < NUMBER_OF_CUBES := by omega
    obtain ⟨hv0, hv31, _⟩ := hfull.1 middle.toNat hmidN
    rw [byte_recombine (t middle.toNat).1 (by omega)]
    rw [if_pos hv31]
    rcases Nat.lt_trichotomy (t middle.toNat).1 c with hvc | hvc | hvc
    · rw [if_pos (by exact_mod_cast hvc)]
      by_cases hg : middle + 1 ≤ mx
      · rw [if_pos hg]
        refine ih (middle + 1) mx (by omega) hg hmx (by omega)
      · rw [if_neg hg]
    · exact absurd hvc (hnone middle.toNat hmidN)
    · rw [if_neg (by exact_mod_cast (by omega : ¬((t middle.toNat).1 < c))),
        if_pos (by exact_mod_cast hvc)]
      by_cases hg : mn ≤ middle - 1
      · rw [if_pos hg]
        refine ih mn (middle - 1) h0 hg (by omega) (by omega)
      · rw [if_neg hg]

/-- The binary search returns the stored turn byte of a present value. -/
lemma get_turn_go_found (t : StateTable) (c : Nat) (hfull : FullSorted t)
    (i : Nat) (hiN : i < NUMBER_OF_CUBES) (hival : (t i).1 = c) :
    ∀ fuel (mn mx : Int), 0 ≤ mn → mn ≤ mx →
      mx < (NUMBER_OF_CUBES : Int) → (mx - mn).toNat < fuel →
      mn ≤ (i : Int) → (i : Int) ≤ mx →
      get_turn_go t c mn mx fuel = ((t i).2 : Int) := by
  intro fuel
  induction fuel with
  | zero =>
    intro mn mx h0 hle hmx hfuel _ _
    omega
  | succ fuel ih =>
    intro mn mx h0 hle hmx hfuel hilo hihi
    rw [get_turn_go_one]
    simp only []
    have htdiv : (mx - mn).tdiv 2 = (mx - mn) / 2 :=
      Int.tdiv_eq_ediv (by omega) (by omega)
    set middle := mn + (mx - mn).tdiv 2 with hmiddef
    have hmid : mn ≤ middle ∧ middle ≤ mx := by
      rw [hmiddef, htdiv]
      omega
    have hmidN : middle.toNat < NUMBER_OF_CUBES := by omega
    obtain ⟨hv0, hv31, _⟩ := hfull.1 middle.toNat hmidN
    rw [byte_recombine (t middle.toNat).1 (by omega)]
    rw [if_pos hv31]
    rcases Nat.lt_trichotomy (t middle.toNat).1 c with hvc | hvc | hvc
    · -- middle's value is below `c`: the hit lies strictly right of middle
      have hgti : middle < (i : Int) := by
        by_contra hcon
        push_neg at hcon
        rcases Nat.lt_or_ge i middle.toNat with h' | h'
        · have := hfull.2 i middle.toNat h' hmidN
          omega
        · have hieq : i = middle.toNat := by omega
          rw [← hieq, hival] at hvc
          omega
      rw [if_pos (by exact_mod_cast hvc), if_pos (by omega)]
      exact ih (middle + 1) mx (by omega) (by omega) hmx (by omega)
        (by omega) hihi
    · -- exact hit: `middle` is the unique slot holding `c`
      have hieq : middle.toNat = i := by
        rcases Nat.lt_trichotomy middle.toNat i with h' | h' | h'
        · have := hfull.2 middle.toNat i h' hiN
          omega
        · exact h'
        · have := hfull.2 i middle.toNat h' hmidN
          omega
      rw [if_neg (by omega), if_neg (by omega)]
      have hturn : (t middle.toNat).2 < 128 := (hfull.1 middle.toNat hmidN).2.2
      rw [Nat.mod_eq_of_lt (by omega), if_pos hturn, hieq]
    · -- middle's value is above `c`: the hit lies strictly left of middle
      have hlti : (i : Int) < middle := by
        by_contra hcon
        push_neg at hcon
        rcases Nat.lt_or_ge middle.toNat i with h' | h' 
        · have := hfull.2 middle.toNat i h' hiN
          omega
        · have hieq : i = middle.toNat := by omega
          rw [← hieq, hival] at hvc
          omega
      rw [if_neg (by exact_mod_cast (by omega : ¬((t middle.toNat).1 < c))),
        if_pos (by exact_mod_cast hvc), if_pos (by omega)]
      exact ih mn (middle - 1) h0 (by omega) (by omega) (by omega) hilo
        (by omega)

/-- `get_turn` on a full sorted table finds every stored record. -/
lemma get_turn_found (t : StateTable) (hfull : FullSorted t) (i : Nat)
    (hiN : i < NUMBER_OF_CUBES) :
    get_turn t (t i).1 = ((t i).2 : Int) := by
  unfold get_turn
  exact get_turn_go_found t (t i).1 hfull i hiN rfl (NUMBER_OF_CUBES + 1) 0
    ((NUMBER_OF_CUBES : Int) - 1) (by omega)
    (by norm_num [NUMBER_OF_CUBES]) (by omega)
    (by norm_num [NUMBER_OF_CUBES]) (by omega) (by omega)

/-- `get_turn` on a full sorted table reports -1 for absent values. -/
lemma get_turn_notfound (t : StateTable) (hfull : FullSorted t) (c : Nat)
    (hc : c < 2 ^ 31) (hnone : ∀ i, i < NUMBER_OF_CUBES → (t i).1 ≠ c) :
    get_turn t c = -1 := by
  unfold get_turn
  exact get_turn_go_notfound t c hc hfull hnone (NUMBER_OF_CUBES + 1) 0
    ((NUMBER_OF_CUBES : Int) - 1) (by omega)
    (by norm_num [NUMBER_OF_CUBES]) (by omega)
    (by norm_num [NUMBER_OF_CUBES])

/-! ## The solve loop on any table that contains the build's records for
`frontC SOLVED_CUBE` (move 1) and `SOLVED_CUBE` (move 2) -/

/-- One unfolding of the `solve_cube` do/while body. -/
lemma solve_cube_go_one (t : StateTable) (cube : Nat) (acc : List Int)
    (count fuel : Nat) :
    solve_cube_go t cube acc count (fuel + 1) =
      (let this_turn := get_turn t cube
       if this_turn = -1 then some .null
       else if 15 ≤ count then some .bufferOverrun
       else if this_turn = 0 then some (.seq acc)
       else
         let cube' :=
           if this_turn = 1 then frontCC cube
           else if this_turn = 2 then frontC cube
           else if this_turn = 3 then leftCC cube
           else if this_turn = 4 then leftC cube
           else if this_turn = 5 then topCC cube
           else if this_turn = 6 then topC cube
           else cube
         solve_cube_go t cube' (acc ++ [this_turn]) (count + 1) fuel) := rfl

/-- Once the walk sits on `frontC SOLVED_CUBE` or on `SOLVED_CUBE` with
the two move codes every completed build stores for them, the solve loop
alternates between those two configurations forever: whatever the fuel,
it either is still running or has overrun the 15-byte buffer — it never
produces a move sequence and never reports an invalid cube. -/
lemma solve_cube_go_cycle (t : StateTable)
    (h1 : get_turn t (frontC SOLVED_CUBE) = 1)
    (h2 : get_turn t SOLVED_CUBE = 2) :
    ∀ fuel (c : Nat), (c = frontC SOLVED_CUBE ∨ c = SOLVED_CUBE) →
      ∀ acc count, solve_cube_go t c acc count fuel = none ∨
        solve_cube_go t c acc count fuel = some .bufferOverrun := by
  intro fuel
  induction fuel with
  | zero =>
    intro c _ acc count
    exact Or.inl rfl
  | succ fuel ih =>
    intro c hcor acc count
    rcases hcor with hc | hc <;> subst hc
    · rw [solve_cube_go_one]
      simp only []
      rw [h1]
      rw [if_neg (by norm_num)]
      by_cases h15 : 15 ≤ count
      · rw [if_pos h15]
        exact Or.inr rfl
      · rw [if_neg h15, if_neg (by norm_num), if_pos rfl]
        have hback : frontCC (frontC SOLVED_CUBE) = SOLVED_CUBE := by decide
        rw [hback]
        exact ih SOLVED_CUBE (Or.inr rfl) _ _
    · rw [solve_cube_go_one]
      simp only []
      rw [h2]
      rw [if_neg (by norm_num)]
      by_cases h15 : 15 ≤ count
      · rw [if_pos h15]
        exact Or.inr rfl
      · rw [if_neg h15, if_neg (by norm_num), if_neg (by norm_num),
          if_pos rfl]
        exact ih (frontC SOLVED_CUBE) (Or.inl rfl) _ _

/-- One unfolding of the `fill_state_table` while loop. -/
lemma fillLoop_one (fuel : Nat) (s : StateTable × Queue) :
    fillLoop (fuel + 1) s =
      (if peek s.2 ≠ 0 then
        match fillStep s with
        | none => none
        | some s' => fillLoop fuel s'
      else some s) := rfl

/-! ## The persisted byte stream -/

lemma flatMap_range_length (n : Nat) (f : Nat → List Nat)
    (hf : ∀ k, (f k).length = 5) :
    ((List.range n).flatMap f).length = 5 * n := by
  induction n with
  | zero => simp
  | succ n ih =>
    rw [List.range_succ, List.flatMap_append]
    simp [ih, hf]
    omega

lemma flatMap_range_getD (n : Nat) (f : Nat → List Nat)
    (hf : ∀ k, (f k).length = 5) :
    ∀ i j, i < n → j < 5 →
      ((List.range n).flatMap f).getD (5 * i + j) 0 = (f i).getD j 0 := by
  induction n with
  | zero =>
    intro i j hi _
    omega
  | succ n ih =>
    intro i j hi hj
    rw [List.range_succ, List.flatMap_append]
    rcases Nat.lt_or_ge i n with h | h
    · rw [List.getD_append]
      · exact ih i j h hj
      · rw [flatMap_range_length n f hf]
        omega
    · have hieq : i = n := by omega
      rw [hieq]
      rw [List.getD_append_right]
      · rw [flatMap_range_length n f hf]
        simp only [List.flatMap_cons, List.flatMap_nil, List.append_nil]
        congr 1
        omega
      · rw [flatMap_range_length n f hf]
        omega

lemma write_state_table_length (t : StateTable) :
    (write_state_table t).length = 5 * NUMBER_OF_CUBES := by
  unfold write_state_table
  exact flatMap_range_length NUMBER_OF_CUBES _ (fun _ => rfl)

lemma write_state_table_getD (t : StateTable) (i j : Nat)
    (hi : i < NUMBER_OF_CUBES) (hj : j < 5) :
    (write_state_table t).getD (5 * i + j) 0 =
      [byteOf (t i).1 3, byteOf (t i).1 2, byteOf (t i).1 1,
        byteOf (t i).1 0, (t i).2 % 256].getD j 0 := by
  unfold write_state_table
  exact flatMap_range_getD NUMBER_OF_CUBES
    (fun k => [byteOf (t k).1 3, byteOf (t k).1 2, byteOf (t k).1 1,
      byteOf (t k).1 0, (t k).2 % 256]) (fun _ => rfl) i j hi hj

/-! ## The claims -/

/-- Claim C1 (code bug): the spec says `solve_cube` returns a shortest
solution for every reachable configuration.  In the code, any completed
build stores the records `(frontC SOLVED_CUBE, 1)` and `(SOLVED_CUBE, 2)`
(lemma `buildAfter_solvedRecord` and the concrete build prefix), and
`get_turn` on the completed full sorted table returns exactly those codes
(lemma `get_turn_found`).  This theorem shows that on any such table the
solve loop entered at `frontC SOLVED_CUBE` — a configuration at BFS
distance 1 — bounces between `frontC SOLVED_CUBE` and `SOLVED_CUBE`
forever: for every fuel bound it is either still running or has overrun
the 15-byte `turn_sequence` buffer (undefined behaviour); it never
returns a move sequence (and never returns NULL). -/
theorem C1_solve_cycles_forever (t : StateTable)
    (h1 : get_turn t (frontC SOLVED_CUBE) = 1)
    (h2 : get_turn t SOLVED_CUBE = 2) (fuel : Nat) :
    solve_cube t (frontC SOLVED_CUBE) fuel = none ∨
      solve_cube t (frontC SOLVED_CUBE) fuel = some .bufferOverrun := by
  unfold solve_cube
  exact solve_cube_go_cycle t h1 h2 fuel (frontC SOLVED_CUBE) (Or.inl rfl)
    [] 0

/-- Witness for C1 on the concrete table `cycleTable`. -/
theorem C1_witness :
    get_turn cycleTable (frontC SOLVED_CUBE) = 1 ∧
    get_turn cycleTable SOLVED_CUBE = 2 ∧
    (solve_cube cycleTable (frontC SOLVED_CUBE) 40 = none ∨
      solve_cube cycleTable (frontC SOLVED_CUBE) 40 =
        some .bufferOverrun) := by
  refine ⟨by decide, by decide, ?_⟩
  exact C1_solve_cycles_forever cycleTable (by decide) (by decide) 40

/-- Claim C2 (corrected), counterexample part: the claim says the
completed table holds one record per reachable *non-solved* configuration
(3,674,159 of them).  But already at the second BFS iteration the build
inserts a record for the solved configuration itself (slot 11 of the
table after two iterations holds `(SOLVED_CUBE, 2)`), and records are
never removed, so the records are not restricted to non-solved
configurations. -/
theorem C2_counterexample :
    (buildAfter 2).map (fun s => s.1 11) = some (SOLVED_CUBE, 2) := by
  decide

/-- Claim C2 (corrected), amended: after any number of BFS iterations
(while the table retains spare capacity) the filled records occupy a
prefix of slots in strictly ascending order of configuration value — so
no value appears twice — but from the second iteration on they include a
record for the solved configuration (move code 2) as well, so a
completed build cannot consist of the 3,674,159 non-solved reachable
configurations only. -/
theorem C2_amended : ∀ n, 6 * n + 6 ≤ NUMBER_OF_CUBES →
    ∀ s, buildAfter n = some s →
      ∃ count, count ≤ 6 * n ∧
        (∀ i j, i < j → j < count → (s.1 i).1 < (s.1 j).1) ∧
        (∀ i, count ≤ i → s.1 i = (0, 0)) ∧
        (2 ≤ n → HasRec s.1 SOLVED_CUBE 2) := by
  intro n h6 s hs
  obtain ⟨count, hle, hwf, _⟩ := buildAfter_inv n h6 s hs
  exact ⟨count, hle, hwf.sorted, hwf.zeroed,
    fun h2 => buildAfter_solvedRecord n h2 h6 s hs⟩

/-- Witness for C2 at the concrete build prefix `buildAfter 2`. -/
theorem C2_witness :
    ∃ s, buildAfter 2 = some s ∧
      ∃ count, count ≤ 12 ∧
        (∀ i j, i < j → j < count → (s.1 i).1 < (s.1 j).1) ∧
        (∀ i, count ≤ i → s.1 i = (0, 0)) ∧
        HasRec s.1 SOLVED_CUBE 2 := by
  have hsome : (buildAfter 2).isSome = true := by decide
  obtain ⟨s, hs⟩ := Option.isSome_iff_exists.mp hsome
  obtain ⟨count, h1, h2, h3, h4⟩ :=
    C2_amended 2 (by norm_num [NUMBER_OF_CUBES]) s hs
  exact ⟨s, hs, count, h1, h2, h3, h4 (by norm_num)⟩

/-- Claim C3 (corrected), counterexample part: the spec says the solved
configuration is "enqueued but never itself recorded as a table entry".
Concretely, after the second BFS iteration the table does hold a record
for the solved configuration (with move code 2). -/
theorem C3_counterexample :
    (buildAfter 2).map (fun s => hasRecordUpTo s.1 12 SOLVED_CUBE 2) =
      some true := by
  decide

/-- Claim C3 (corrected), amended: the solved configuration is enqueued
as the BFS seed but is then re-discovered as a neighbour of
`frontC SOLVED_CUBE` during the second iteration and *is* recorded, with
move code 2; the record persists for the rest of the build (while the
table retains spare capacity), so a completed build's table does hold a
record for the solved configuration and `get_turn` on the completed full
sorted table returns 2 for it, not the -1 not-found indicator. -/
theorem C3_amended : ∀ n, 2 ≤ n → 6 * n + 6 ≤ NUMBER_OF_CUBES →
    ∀ s, buildAfter n = some s → HasRec s.1 SOLVED_CUBE 2 :=
  buildAfter_solvedRecord

/-- Witness for C3 at the concrete build prefix `buildAfter 2`. -/
theorem C3_witness :
    ∃ s, buildAfter 2 = some s ∧ HasRec s.1 SOLVED_CUBE 2 := by
  have hsome : (buildAfter 2).isSome = true := by decide
  obtain ⟨s, hs⟩ := Option.isSome_iff_exists.mp hsome
  exact ⟨s, hs, C3_amended 2 (by norm_num) (by norm_num [NUMBER_OF_CUBES])
    s hs⟩

/-- Claim C4 (confirmed): applying a move and then its algebraic inverse
(front-CW with front-CCW, left-CW with left-CCW, top-CW with top-CCW)
returns every reachable configuration to itself, and the six permutation
rows of `turn_table` pair up into mutually inverse permutations of the 21
piece states (hence every move is a bijection on the configuration
space). -/
theorem C4_move_invertibility :
    (∀ cube, Reachable cube →
      frontCC (frontC cube) = cube ∧ frontC (frontCC cube) = cube ∧
      leftCC (leftC cube) = cube ∧ leftC (leftCC cube) = cube ∧
      topCC (topC cube) = cube ∧ topC (topCC cube) = cube) ∧
    (∀ s, s < 21 →
      tt 0 (tt 1 s) = s ∧ tt 1 (tt 0 s) = s ∧ tt 2 (tt 3 s) = s ∧
      tt 3 (tt 2 s) = s ∧ tt 4 (tt 5 s) = s ∧ tt 5 (tt 4 s) = s) := by
  have hrows : ∀ s, s < 21 →
      tt 0 (tt 1 s) = s ∧ tt 1 (tt 0 s) = s ∧ tt 2 (tt 3 s) = s ∧
      tt 3 (tt 2 s) = s ∧ tt 4 (tt 5 s) = s ∧ tt 5 (tt 4 s) = s := by
    decide
  refine ⟨?_, hrows⟩
  intro cube hR
  have hlt := reachable_lt cube hR
  refine ⟨?_, ?_, ?_, ?_, ?_, ?_⟩
  · exact rotate_rotate_cancel 1 0 (fun s hs => (hrows s hs).1) cube hlt
  · exact rotate_rotate_cancel 0 1 (fun s hs => (hrows s hs).2.1) cube hlt
  · exact rotate_rotate_cancel 3 2 (fun s hs => (hrows s hs).2.2.1) cube hlt
  · exact rotate_rotate_cancel 2 3 (fun s hs => (hrows s hs).2.2.2.1) cube
      hlt
  · exact rotate_rotate_cancel 5 4 (fun s hs => (hrows s hs).2.2.2.2.1)
      cube hlt
  · exact rotate_rotate_cancel 4 5 (fun s hs => (hrows s hs).2.2.2.2.2)
      cube hlt

/-- Witness for C4 at the solved configuration and piece state 5. -/
theorem C4_witness :
    (frontCC (frontC SOLVED_CUBE) = SOLVED_CUBE ∧
      frontC (frontCC SOLVED_CUBE) = SOLVED_CUBE ∧
      leftCC (leftC SOLVED_CUBE) = SOLVED_CUBE ∧
      leftC (leftCC SOLVED_CUBE) = SOLVED_CUBE ∧
      topCC (topC SOLVED_CUBE) = SOLVED_CUBE ∧
      topC (topCC SOLVED_CUBE) = SOLVED_CUBE) ∧
    tt 0 (tt 1 5) = 5 := by
  refine ⟨C4_move_invertibility.1 SOLVED_CUBE Reachable.solved, ?_⟩
  exact (C4_move_invertibility.2 5 (by norm_num)).1

/-- Claim C5 (code bug): the spec says the BFS loop exits as soon as
`peek` reports the queue empty.  But `peek` signals empty with -1 while
the loop condition is `peek(queue) != 0`, so on an exhausted frontier the
loop does not exit: it runs its body once more, `dequeue` returns the -1
empty indicator, and `rotate` is applied to -1, reading `turn_table` out
of bounds (undefined behaviour, `none` in the model) — the loop never
terminates normally on an exhausted queue. -/
theorem C5_loop_runs_past_empty (fuel : Nat) (t : StateTable) (q : Queue)
    (hq : q.cells = []) :
    peek q = -1 ∧ fillLoop (fuel + 1) (t, q) = none := by
  have hpeek : peek q = -1 := by
    unfold peek
    rw [hq]
  refine ⟨hpeek, ?_⟩
  rw [fillLoop_one]
  rw [if_pos (by show peek q ≠ 0; rw [hpeek]; norm_num)]
  have hstep : fillStep (t, q) = none := by
    unfold fillStep
    rw [show dequeue (t, q).2 = (-1, q) by unfold dequeue; rw [hq]]
    simp only []
    rw [if_pos (by norm_num)]
  rw [hstep]

/-- Witness for C5 on the empty queue `fill_state_table` starts from. -/
theorem C5_witness :
    peek (createQueue NUMBER_OF_CUBES) = -1 ∧
      fillLoop 1 (make_state_table, createQueue NUMBER_OF_CUBES) = none :=
  C5_loop_runs_past_empty 0 make_state_table (createQueue NUMBER_OF_CUBES)
    rfl

/-- Claim C6 (corrected), counterexample part: on a table whose filled
records (here the single record `(5, 1)` in slot 0) are strictly
ascending but which is not completely full, `get_turn` misses a present
record: the binary search probes the zero-filled empty slots, steers
right, and returns -1 although a record for 5 is stored. -/
theorem C6_counterexample :
    partialTable 0 = (5, 1) ∧ get_turn partialTable 5 = -1 := by
  constructor
  · rfl
  · decide

/-- Claim C6 (corrected), amended: `get_turn`'s binary search is correct
on *completely filled* strictly sorted tables (which is what a completed
build produces): it returns the stored move byte on an exact match and -1
when the value is absent.  On partially filled tables the zero-filled
slots break the sortedness assumption of the search and present records
can be missed (see the counterexample). -/
theorem C6_amended (t : StateTable) (hfull : FullSorted t) :
    (∀ i, i < NUMBER_OF_CUBES → get_turn t (t i).1 = ((t i).2 : Int)) ∧
    (∀ c, c < 2 ^ 31 → (∀ i, i < NUMBER_OF_CUBES → (t i).1 ≠ c) →
      get_turn t c = -1) := by
  constructor
  · intro i hiN
    exact get_turn_found t hfull i hiN
  · intro c hc hnone
    exact get_turn_notfound t hfull c hc hnone

/-- Witness for C6 on the completely filled sorted table `fullTable`. -/
theorem C6_witness :
    get_turn fullTable 7 = 1 ∧ get_turn fullTable 3674161 = -1 := by
  have hfs : FullSorted fullTable := by
    constructor
    · intro i hi
      refine ⟨by simp [fullTable], ?_, by simp [fullTable]⟩
      simp only [fullTable]
      norm_num [NUMBER_OF_CUBES] at hi ⊢
      omega
    · intro i j hij hj
      simp only [fullTable]
      omega
  have h := C6_amended fullTable hfs
  constructor
  · have h6 := h.1 6 (by norm_num [NUMBER_OF_CUBES])
    simpa [fullTable] using h6
  · refine h.2 3674161 (by norm_num) ?_
    intro i hi
    simp only [fullTable]
    norm_num [NUMBER_OF_CUBES] at hi ⊢
    omega

/-- Claim C7 (corrected), counterexample part: the claim computes the
persisted size as 3,674,159 × 5 = 18,370,795 bytes, but
`write_state_table` hands `fwrite` the whole fixed-size array:
`SIZE_OF_CUBE * NUMBER_OF_CUBES` = 5 × 3,674,160 = 18,370,800 bytes (as
the source file's own header comment states). -/
theorem C7_counterexample :
    (write_state_table make_state_table).length = 18370800 ∧
      (18370800 : Nat) ≠ 3674159 * 5 := by
  constructor
  · rw [write_state_table_length]
    norm_num [NUMBER_OF_CUBES]
  · norm_num

/-- Claim C7 (corrected), amended: the persisted stream is a flat
sequence of fixed-width 5-byte records — for every slot `i`, bytes
`5i .. 5i+3` are the big-endian bytes of the slot's configuration value
and byte `5i+4` is its move byte — but the total size is
`NUMBER_OF_CUBES * SIZE_OF_CUBE` = 3,674,160 × 5 = 18,370,800 bytes (the
whole array, whatever its contents), not 3,674,159 × 5. -/
theorem C7_amended (t : StateTable) :
    (write_state_table t).length = NUMBER_OF_CUBES * SIZE_OF_CUBE ∧
    (write_state_table t).length = 18370800 ∧
    ∀ i, i < NUMBER_OF_CUBES →
      (write_state_table t).getD (5 * i) 0 = byteOf (t i).1 3 ∧
      (write_state_table t).getD (5 * i + 1) 0 = byteOf (t i).1 2 ∧
      (write_state_table t).getD (5 * i + 2) 0 = byteOf (t i).1 1 ∧
      (write_state_table t).getD (5 * i + 3) 0 = byteOf (t i).1 0 ∧
      (write_state_table t).getD (5 * i + 4) 0 = (t i).2 % 256 := by
  refine ⟨?_, ?_, ?_⟩
  · rw [write_state_table_length]
    norm_num [NUMBER_OF_CUBES, SIZE_OF_CUBE]
  · rw [write_state_table_length]
    norm_num [NUMBER_OF_CUBES]
  · intro i hi
    have h0 := write_state_table_getD t i 0 hi (by norm_num)
    have h1 := write_state_table_getD t i 1 hi (by norm_num)
    have h2 := write_state_table_getD t i 2 hi (by norm_num)
    have h3 := write_state_table_getD t i 3 hi (by norm_num)
    have h4 := write_state_table_getD t i 4 hi (by norm_num)
    simp only [Nat.add_zero] at h0
    exact ⟨h0, h1, h2, h3, h4⟩

/-- Witness for C7 on the zero-filled table. -/
theorem C7_witness :
    (write_state_table make_state_table).length = 18370800 ∧
      (write_state_table make_state_table).getD 0 0 = 0 := by
  have h := C7_amended make_state_table
  refine ⟨h.2.1, ?_⟩
  have h0 := (h.2.2 0 (by norm_num [NUMBER_OF_CUBES])).1
  simpa [make_state_table, byteOf] using h0

/-- Claim C8 (corrected), counterexample part: the claim says that when
the lookup of the solved configuration reports not-found, `solve_cube`
terminates successfully with the (empty) accumulated sequence.  On a
table in which the solved configuration is not found (here the empty
table), `solve_cube(solved)` instead returns NULL — the code has no
solved-configuration special case at all. -/
theorem C8_counterexample :
    solve_cube make_state_table SOLVED_CUBE 1 = some SolveResult.null ∧
      some SolveResult.null ≠ some (SolveResult.seq []) := by
  constructor
  · decide
  · decide

/-- Claim C8 (corrected), amended: whenever `get_turn` reports -1
(not found), `solve_cube` returns NULL — whether or not the configuration
is the solved one; the two cases are not distinguished.  `solve_cube`
returns the accumulated sequence only upon reading a stored move code 0,
which the builder never writes. -/
theorem C8_amended (t : StateTable) (cube : Nat) (fuel : Nat)
    (h : get_turn t cube = -1) :
    solve_cube t cube (fuel + 1) = some SolveResult.null := by
  unfold solve_cube
  rw [solve_cube_go_one]
  simp only []
  rw [h, if_pos rfl]

/-- Witness for C8: the solved configuration on the empty table. -/
theorem C8_witness :
    solve_cube make_state_table SOLVED_CUBE (0 + 1) =
      some SolveResult.null :=
  C8_amended make_state_table SOLVED_CUBE 0 (by decide)

/-- Claim C9 (code bug): the spec requires a queue overflow during
construction to abort the build with a clear signal, i.e. every `enqueue`
result in the BFS body to be checked.  The code discards every `enqueue`
result: when `add_state` has just discovered a new state and the frontier
queue is full, `enqueue` returns the -1 overflow indicator, yet the loop
body completes normally (`some`), with the discovered state silently
missing from the frontier and the queue unchanged. -/
theorem C9_enqueue_overflow_ignored (t : StateTable) (q : Queue)
    (cube code r : Nat) (t' : StateTable)
    (hfull : q.max_cells ≤ q.cells.length)
    (hadd : add_state t cube code = some (r, t')) :
    (enqueue q ((cube : Nat) : Int)).1 = -1 ∧
      addAndEnqueue (t, q) cube code = some (t', q) := by
  have henq : enqueue q ((cube : Nat) : Int) = (-1, q) := by
    unfold enqueue
    rw [if_pos hfull]
  refine ⟨by rw [henq], ?_⟩
  unfold addAndEnqueue
  rw [hadd]
  show (if r ≠ 0 then some (t', (enqueue q ((cube : Nat) : Int)).2)
    else some (t', q)) = some (t', q)
  by_cases hr : r ≠ 0
  · rw [if_pos hr, henq]
  · rw [if_neg hr]

/-- Witness for C9: a full queue (capacity 1 holding one entry) and a
fresh state discovered on the empty table. -/
theorem C9_witness :
    ∃ r t', add_state make_state_table 7 1 = some (r, t') ∧
      (enqueue ⟨[5], 1⟩ ((7 : Nat) : Int)).1 = -1 ∧
      addAndEnqueue (make_state_table, ⟨[5], 1⟩) 7 1 = some (t', ⟨[5], 1⟩)
    := by
  obtain ⟨r, t', hadd⟩ :
      ∃ r t', add_state make_state_table 7 1 = some (r, t') := ⟨1, _, rfl⟩
  have h := C9_enqueue_overflow_ignored make_state_table ⟨[5], 1⟩ 7 1 r t'
    (by decide) hadd
  exact ⟨r, t', hadd, h.1, h.2⟩

/-- Claim C10 (confirmed): `find_index` treats a record whose four value
bytes are all zero as an empty slot, so probing for the configuration
value 0 always stops at slot 0 — either it is empty, or its record's
first differing byte is necessarily greater than 0 — and `add_state`
therefore returns 1 ("newly inserted") on *every* table, even one that
already holds a record with value 0: presence of the value 0 is
undetectable at the table interface. -/
theorem C10_zero_value_undetectable (t : StateTable) (turn : Nat) :
    find_index t 0 = some 0 ∧ ∃ t', add_state t 0 turn = some (1, t') := by
  have hfi : find_index t 0 = some 0 := by
    unfold find_index
    rw [show NUMBER_OF_CUBES = 3674159 + 1 from rfl]
    rw [find_index_go_one]
    simp only [byteOf3, byteOf2, byteOf1, byteOf0]
    norm_num
  refine ⟨hfi, ?_⟩
  unfold add_state
  rw [hfi]
  exact ⟨_, rfl⟩
